import Mathlib

/-!
Verification of the sarathi agent engine, tool registry, response parser and
LLM client retry logic, as a shallow embedding of the Python sources
(`sarathi/llm/agent_engine.py`, `sarathi/llm/tools.py`,
`sarathi/llm/response_parser.py`, `sarathi/llm/llm_client.py`).

Python dictionaries keyed by integers are modelled as insertion-ordered
association lists `List (Nat × α)`; `dict.values()` is `List.map Prod.snd`.
Python string truthiness (`if s:`) is modelled by `truthy` on `Option String`
(`None` and `""` are falsy).  Machine-level details (HTTP transport, JSON
wire format) are abstracted exactly at the boundary where the source code
treats them as opaque values.
-/

namespace Sarathi

/-- Truthiness of `tc.get("key")` for an optional string field: Python's
`if x:` is false for both `None` and `""`. -/
def truthy : Option String → Bool
  | some s => !s.isEmpty
  | none => false

/-- The `function` sub-object of a streamed tool-call fragment: both fields
are deltas and may be absent (`f.get("name")` / `f.get("arguments")`). -/
structure FunctionDelta where
  name : Option String
  arguments : Option String
deriving DecidableEq, Repr

/-- One tool-call fragment as it arrives in a streaming chunk
(`delta["tool_calls"][k]`): any subset of `index`, `id`, `function` may be
present. -/
structure TCFragment where
  index : Option Nat
  id : Option String
  function : Option FunctionDelta
deriving DecidableEq, Repr

/-- The assembled `function` object of a tool call
(`{"name": ..., "arguments": ...}`). -/
structure FunctionCall where
  name : String
  arguments : String
deriving DecidableEq, Repr

/-- An assembled tool-call object as stored in an accumulator slot and in
assistant messages: `{"id": ..., "type": "function", "function": {...}}`. -/
structure ToolCallObj where
  id : Option String
  type : String
  function : FunctionCall
deriving DecidableEq, Repr

/-- `tc.get("index", 0)`. -/
def fragIdx (f : TCFragment) : Nat := f.index.getD 0

/-- `tc.get("function", {})`. -/
def fdelta (f : TCFragment) : FunctionDelta := f.function.getD ⟨none, none⟩

/-- The name delta a fragment carries (empty when absent). -/
def nameDelta (f : TCFragment) : String := (fdelta f).name.getD ""

/-- The arguments delta a fragment carries (empty when absent). -/
def argsDelta (f : TCFragment) : String := (fdelta f).arguments.getD ""

namespace ToolCallAggregator

/-- The aggregator state `self._chunks : Dict[int, Dict]` as an
insertion-ordered association list. -/
abbrev AggState := List (Nat × ToolCallObj)

/-- The fresh slot created for a new index:
`{"id": tc.get("id"), "type": "function", "function": {"name": "", "arguments": ""}}`
(`response_parser.py` lines 185-189). -/
def initSlot (f : TCFragment) : ToolCallObj := ⟨f.id, "function", ⟨"", ""⟩⟩

/-- Apply one fragment to a slot: overwrite `id` only when the fragment's is
truthy, concatenate the truthy `name` and `arguments` deltas
(`response_parser.py` lines 191-198). -/
def updSlot (slot : ToolCallObj) (f : TCFragment) : ToolCallObj :=
  let s1 := if truthy f.id then { slot with id := f.id } else slot
  let s2 := if truthy (fdelta f).name then
      { s1 with function := { s1.function with name := s1.function.name ++ nameDelta f } }
    else s1
  if truthy (fdelta f).arguments then
    { s2 with function := { s2.function with arguments := s2.function.arguments ++ argsDelta f } }
  else s2

/-- `idx in self._chunks`. -/
def hasKey (st : AggState) (k : Nat) : Bool := st.any (fun p => p.1 == k)

/-- In-place update of the slot stored at key `k` (Python mutates the dict
entry; insertion order is unchanged). -/
def updateAt (st : AggState) (k : Nat) (f : TCFragment) : AggState :=
  st.map (fun p => if p.1 = k then (p.1, updSlot p.2 f) else p)

/-- Process one fragment: create the slot if its index is new, then apply the
id/name/arguments updates to the stored slot (`response_parser.py` lines
181-198; the identical inline logic appears in `agent_engine.py` lines
65-82). -/
def step (st : AggState) (f : TCFragment) : AggState :=
  let idx := fragIdx f
  let st' := if hasKey st idx then st else st ++ [(idx, initSlot f)]
  updateAt st' idx f

/-- `add_chunk(tool_calls)`: fold the fragment list into the state. -/
def add_chunk (st : AggState) (tool_calls : List TCFragment) : AggState :=
  tool_calls.foldl step st

/-- `get_complete_calls()`: `list(self._chunks.values())` — the stored slots
in dictionary (insertion) order. -/
def get_complete_calls (st : AggState) : List ToolCallObj := st.map Prod.snd

/-- Concatenation, in arrival order, of the name deltas of a fragment list. -/
def concatNames (fs : List TCFragment) : String :=
  fs.foldl (fun a f => a ++ nameDelta f) ""

/-- Concatenation, in arrival order, of the arguments deltas of a fragment
list. -/
def concatArgs (fs : List TCFragment) : String :=
  fs.foldl (fun a f => a ++ argsDelta f) ""

/-- The last truthy (non-empty) `id` carried by any fragment, if any. -/
def lastNonEmptyId (fs : List TCFragment) : Option String :=
  fs.foldl (fun a f => if truthy f.id then f.id else a) none

/-- The id stored by the very first fragment's slot creation. -/
def firstId : List TCFragment → Option String
  | [] => none
  | f :: _ => f.id

/-- The id the aggregator ends up storing: the last non-empty id when one was
supplied, otherwise whatever the first fragment carried. -/
def finalId (fs : List TCFragment) : Option String :=
  match lastNonEmptyId fs with
  | some v => some v
  | none => firstId fs

/-- First-occurrence order of a key sequence relative to an already-seen set:
the order in which a Python dict acquires its keys. -/
def dedupF (seen : List Nat) : List Nat → List Nat
  | [] => []
  | x :: xs => if x ∈ seen then dedupF seen xs else x :: dedupF (x :: seen) xs

/-- Insert an entry into a key-sorted association list. -/
def insertSorted (p : Nat × ToolCallObj) : AggState → AggState
  | [] => [p]
  | q :: rest => if p.1 ≤ q.1 then p :: q :: rest else q :: insertSorted p rest

/-- Sort an association list by ascending key (insertion sort). -/
def sortByIdx (l : AggState) : AggState := l.foldr insertSorted []

/-- Modelled from the spec: the spec's words "returns all accumulated slots
in index order" read as ascending fragment-index order — the slots sorted by
their integer key.  This is the spec-side reading, to be compared with
`get_complete_calls` (which returns dictionary insertion order). -/
def get_calls_sorted_spec (st : AggState) : List ToolCallObj :=
  (sortByIdx st).map Prod.snd

end ToolCallAggregator

/-! ## Tool registry (`sarathi/llm/tools.py`) -/

/-- A Python runtime value as returned by a tool executable.  `call_tool`
returns these unconverted on success; `pyStr` is Python's `str(...)`. -/
inductive PyValue where
  | str (s : String)
  | int (n : Int)
deriving DecidableEq, Repr

/-- Python `str(result)` on a tool result value. -/
def pyStr : PyValue → String
  | .str s => s
  | .int n => toString n

/-- The registry's `self.tools` dictionary.  Each entry's executable models
the body of `call_tool`'s `try` block for that tool —
`json.loads(arguments_json)` followed by `func(**args)` — where any raised
exception (JSON parse failure, bad keyword arguments, or an exception inside
the tool body) is `Except.error` carrying `str(e)`. -/
abbrev Registry := List (String × (String → Except String PyValue))

/-- `name not in self.tools` / `self.tools[name]` lookup. -/
def lookupTool : Registry → String → Option (String → Except String PyValue)
  | [], _ => none
  | (k, f) :: rest, n => if k = n then some f else lookupTool rest n

/-- `ToolRegistry.call_tool(name, arguments_json)` (`tools.py` lines 55-63):
unknown name yields an error string; an exception from parsing or from the
tool body yields an error string embedding the exception message; success
returns the tool's result unconverted. -/
def call_tool (reg : Registry) (name arguments_json : String) : PyValue :=
  match lookupTool reg name with
  | none => .str ("Error: Tool " ++ name ++ " not found.")
  | some f =>
    match f arguments_json with
    | .ok r => r
    | .error e => .str ("Error executing tool " ++ name ++ ": " ++ e)

/-! ## Agent engine (`sarathi/llm/agent_engine.py`) -/

/-- The `delta` object of a streaming chunk's first choice. -/
structure Delta where
  content : Option String
  tool_calls : Option (List TCFragment)
deriving DecidableEq, Repr

/-- One element of a chunk's `choices` list. -/
structure Choice where
  delta : Delta
deriving DecidableEq, Repr

/-- A parsed SSE chunk as yielded by `_call_llm_stream`. -/
structure Chunk where
  choices : List Choice
deriving DecidableEq, Repr

/-- `chunk.get("choices", [{}])[0].get("delta", {})` (`agent_engine.py`
line 54): the first choice's delta, or an empty delta when absent. -/
def chunkDelta (c : Chunk) : Delta :=
  (c.choices.headD ⟨⟨none, none⟩⟩).delta

/-- One message of the conversation history, mirroring the dictionaries the
engine appends.  `tool_call_id` is doubly optional because the engine stores
`tool_call.get("id")`, which may itself be `None`. -/
structure Message where
  role : String
  content : Option String := none
  tool_calls : Option (List ToolCallObj) := none
  tool_call_id : Option (Option String) := none
  name : Option String := none
deriving DecidableEq, Repr

namespace AgentEngine

open ToolCallAggregator

/-- Per-model-turn stream accumulator: `full_content`, the
`tool_calls_chunks` dict, and the content tokens yielded so far
(`agent_engine.py` lines 50-51). -/
structure TurnAcc where
  full_content : String
  chunks : AggState
  tokens : List String
deriving DecidableEq, Repr

/-- Process one streaming chunk (`agent_engine.py` lines 53-82): a truthy
content delta is appended to `full_content` and yielded; a truthy
`tool_calls` delta is folded into the accumulator dict (the inline loop in
lines 65-82 is the same logic as `ToolCallAggregator.add_chunk`). -/
def processChunk (acc : TurnAcc) (ch : Chunk) : TurnAcc :=
  let d := chunkDelta ch
  let acc1 :=
    match d.content with
    | some c =>
      if c.isEmpty then acc
      else { acc with full_content := acc.full_content ++ c, tokens := acc.tokens ++ [c] }
    | none => acc
  match d.tool_calls with
  | some tcs => if tcs.isEmpty then acc1 else { acc1 with chunks := tcs.foldl step acc1.chunks }
  | none => acc1

/-- One whole model turn's stream. -/
def processTurn (chs : List Chunk) : TurnAcc :=
  chs.foldl processChunk ⟨"", [], []⟩

/-- The progress token yielded before dispatching a tool
(`agent_engine.py` line 99).  It is a plain string, like every other value
this generator yields. -/
def dimToken (n : String) : String := "\n[dim]Calling tool: " ++ n ++ "...[/dim]\n"

/-- The fixed denial text (`agent_engine.py` line 108). -/
def denialText : String := "Tool execution was denied by the user."

/-- The tool-role message recording a denied call (lines 103-110). -/
def denialMsg (tc : ToolCallObj) : Message :=
  { role := "tool", content := some denialText,
    tool_call_id := some tc.id, name := some tc.function.name }

/-- The tool-role message recording an executed call's stringified result
(lines 114-121). -/
def resultMsg (tc : ToolCallObj) (result : PyValue) : Message :=
  { role := "tool", content := some (pyStr result),
    tool_call_id := some tc.id, name := some tc.function.name }

/-- Outcome of handling tool calls: tokens yielded, messages appended, and
the log of `(name, arguments)` pairs actually dispatched to
`registry.call_tool`. -/
structure ToolStep where
  tokens : List String
  msgs : List Message
  executed : List (String × String)
deriving Repr

/-- Handle one tool call (`agent_engine.py` lines 95-121): yield the
progress token; if a confirmation callback is configured and returns false,
append the denial message and skip execution; otherwise dispatch through the
registry and append the stringified result. -/
def processToolCall (cb : Option (String → String → Bool)) (reg : Registry)
    (tc : ToolCallObj) : ToolStep :=
  let n := tc.function.name
  let a := tc.function.arguments
  let denied := match cb with
    | some f => !f n a
    | none => false
  if denied then ⟨[dimToken n], [denialMsg tc], []⟩
  else ⟨[dimToken n], [resultMsg tc (call_tool reg n a)], [(n, a)]⟩

/-- Sequentially handle a turn's tool calls, concatenating tokens, appended
messages and the execution log in order. -/
def processToolCalls (cb : Option (String → String → Bool)) (reg : Registry)
    (tcs : List ToolCallObj) : ToolStep :=
  tcs.foldl
    (fun acc tc =>
      let s := processToolCall cb reg tc
      ⟨acc.tokens ++ s.tokens, acc.msgs ++ s.msgs, acc.executed ++ s.executed⟩)
    ⟨[], [], []⟩

/-- The safety-limit warning yielded after the loop exhausts its 10
iterations (`agent_engine.py` line 130). -/
def safetyToken : String := "⚠️ Safety Limit reached (10 tool iterations)."

/-- Result of `run_stream`: the yielded tokens, the final conversation
history, and how many times `_call_llm_stream` was invoked. -/
structure RunOut where
  tokens : List String
  msgs : List Message
  calls : Nat
deriving Repr

/-- `tool_calls = list(tool_calls_chunks.values())` (`agent_engine.py`
line 86). -/
def turnToolCalls (t : TurnAcc) : List ToolCallObj := t.chunks.map Prod.snd

/-- The assistant message recording a tool-requesting turn
(`agent_engine.py` lines 88-93); its content is `full_content or None`. -/
def turnAssistantMsg (t : TurnAcc) : Message :=
  { role := "assistant",
    content := if t.full_content.isEmpty then none else some t.full_content,
    tool_calls := some (turnToolCalls t) }

/-- The engine's `while iteration < max_iterations` loop
(`agent_engine.py` lines 46-130), with the provider modelled as the list of
successive streamed turns (`turns.headD []` is what the next
`_call_llm_stream` call yields; each entered iteration consumes one).  Fuel
counts the remaining allowed iterations, starting at 10; at fuel 0 the loop
has exited by exhaustion and yields the safety warning without any further
provider call. -/
def runStreamLoop (cb : Option (String → String → Bool)) (reg : Registry) :
    Nat → List (List Chunk) → List Message → RunOut
  | 0, _, msgs => ⟨[safetyToken], msgs, 0⟩
  | fuel + 1, turns, msgs =>
    let t := processTurn (turns.headD [])
    if t.chunks.isEmpty then
      ⟨t.tokens,
       if t.full_content.isEmpty then msgs
       else msgs ++ [{ role := "assistant", content := some t.full_content }],
       1⟩
    else
      let r := processToolCalls cb reg (turnToolCalls t)
      let rest := runStreamLoop cb reg fuel turns.tail
        (msgs ++ [turnAssistantMsg t] ++ r.msgs)
      ⟨t.tokens ++ r.tokens ++ rest.tokens, rest.msgs, rest.calls + 1⟩

/-- `run_stream(user_input)` (`agent_engine.py` lines 39-130): append the
user turn, then run the loop with `max_iterations = 10`. -/
def run_stream (cb : Option (String → String → Bool)) (reg : Registry)
    (turns : List (List Chunk)) (msgs : List Message) (user_input : String) : RunOut :=
  runStreamLoop cb reg 10 turns (msgs ++ [{ role := "user", content := some user_input }])

/-- `run(user_input)` (`agent_engine.py` lines 31-37): drain `run_stream`
and concatenate every yielded value that is a string — which, in this
engine, is every yielded value (content tokens, tool progress tokens and the
safety warning are all plain strings). -/
def run (cb : Option (String → String → Bool)) (reg : Registry)
    (turns : List (List Chunk)) (msgs : List Message) (user_input : String) : String :=
  (run_stream cb reg turns msgs user_input).tokens.foldl (· ++ ·) ""

end AgentEngine

/-! ## Retry policy (`llm_client.py` `call_sync`, `agent_engine.py`
`_call_llm_stream`) -/

/-- What one HTTP attempt observes: a response with a status code and
payload, or a transport-level `httpx.HTTPError` raised while talking to the
server. -/
inductive HttpRes where
  | status (code : Nat) (body : String)
  | transportErr (msg : String)
deriving DecidableEq, Repr

/-- Outcome of a retried call: the returned data or the re-raised error,
the number of attempts issued, and the backoff sleeps performed in order. -/
structure RetryOut where
  result : Except String String
  attempts : Nat
  sleeps : List Nat
deriving Repr

/-- The attempt loop of `LLMClient.call_sync` (`llm_client.py` lines
262-299).  `remaining` is how many iterations of
`for attempt in range(max_retries + 1)` are left; `attempt` is the current
index and `retry_delay` the current backoff.  A 429 before the last attempt
sleeps and retries with doubled delay; any other `raise_for_status` failure
(code ≥ 400) or transport error is caught and likewise retried, or re-raised
on the last attempt; a success returns the response data.  Exhausting the
range (line 299's unreachable fallback) returns the error dictionary. -/
def call_sync_from (responses : Nat → HttpRes) (max_retries : Nat) :
    Nat → Nat → Nat → List Nat → RetryOut
  | 0, attempt, _, sleeps => ⟨.ok "Max retries exceeded", attempt, sleeps⟩
  | remaining + 1, attempt, retry_delay, sleeps =>
    match responses attempt with
    | .transportErr e =>
      if attempt < max_retries then
        call_sync_from responses max_retries remaining (attempt + 1) (retry_delay * 2)
          (sleeps ++ [retry_delay])
      else ⟨.error e, attempt + 1, sleeps⟩
    | .status code body =>
      if code = 429 ∧ attempt < max_retries then
        call_sync_from responses max_retries remaining (attempt + 1) (retry_delay * 2)
          (sleeps ++ [retry_delay])
      else if 400 ≤ code then
        if attempt < max_retries then
          call_sync_from responses max_retries remaining (attempt + 1) (retry_delay * 2)
            (sleeps ++ [retry_delay])
        else ⟨.error ("HTTP " ++ toString code), attempt + 1, sleeps⟩
      else ⟨.ok body, attempt + 1, sleeps⟩

/-- `LLMClient.call_sync`'s retry loop from its initial state
(`attempt = 0`, `retry_delay = 2`). -/
def call_sync (responses : Nat → HttpRes) (max_retries : Nat) : RetryOut :=
  call_sync_from responses max_retries (max_retries + 1) 0 2 []

/-- The attempt loop of `AgentEngine._call_llm_stream` (`agent_engine.py`
lines 172-238), whose retry skeleton is identical to `call_sync`: 429 before
the last attempt sleeps and retries; `raise_for_status` failures and
transport errors are caught and retried or re-raised on the last attempt; a
successful stream is drained and the generator returns. -/
def call_stream_from (responses : Nat → HttpRes) (max_retries : Nat) :
    Nat → Nat → Nat → List Nat → RetryOut
  | 0, attempt, _, sleeps => ⟨.ok "stream never started", attempt, sleeps⟩
  | remaining + 1, attempt, retry_delay, sleeps =>
    match responses attempt with
    | .transportErr e =>
      if attempt < max_retries then
        call_stream_from responses max_retries remaining (attempt + 1) (retry_delay * 2)
          (sleeps ++ [retry_delay])
      else ⟨.error e, attempt + 1, sleeps⟩
    | .status code body =>
      if code = 429 ∧ attempt < max_retries then
        call_stream_from responses max_retries remaining (attempt + 1) (retry_delay * 2)
          (sleeps ++ [retry_delay])
      else if 400 ≤ code then
        if attempt < max_retries then
          call_stream_from responses max_retries remaining (attempt + 1) (retry_delay * 2)
            (sleeps ++ [retry_delay])
        else ⟨.error ("HTTP " ++ toString code), attempt + 1, sleeps⟩
      else ⟨.ok body, attempt + 1, sleeps⟩

/-- `_call_llm_stream`'s retry loop from its initial state. -/
def call_stream (responses : Nat → HttpRes) (max_retries : Nat) : RetryOut :=
  call_stream_from responses max_retries (max_retries + 1) 0 2 []

/-- A provider response that is a 429 or a transport error. -/
def is429orErr : HttpRes → Bool
  | .status c _ => c == 429
  | .transportErr _ => true

/-! ## `ResponseParser.clean_reasoning_content` (`response_parser.py` lines
47-52 and 67-87)

The four `SYSTEM_PROMPT_PATTERNS` are all of the shape
`^OPEN .*? CLOSE (\s*)?`, compiled with `re.DOTALL | re.IGNORECASE` and
substituted once each with `pattern.sub("", ...)`; since `^` (without
`MULTILINE`) only matches at position 0, each `sub` removes at most one
leading occurrence.  Text is modelled as `List Char` and the fixed patterns
as explicit case-insensitive scanners. -/

namespace ResponseParser

/-- Python's `\s` / `str.strip()` whitespace, over ASCII. -/
def isSpaceChar (c : Char) : Bool :=
  c = ' ' || c = '\t' || c = '\n' || c = '\r' || c = '\x0b' || c = '\x0c'

/-- Case-insensitive character comparison (`re.IGNORECASE`). -/
def lowEq (a b : Char) : Bool := a.toLower == b.toLower

/-- Does `pat` match case-insensitively at the front of `s`? -/
def ciPre : List Char → List Char → Bool
  | [], _ => true
  | _ :: _, [] => false
  | p :: ps, c :: cs => lowEq p c && ciPre ps cs

/-- Lazy `.*? CLOSE` with `DOTALL`: scan for the earliest position where the
closing tag matches (possibly immediately), returning the text after it. -/
def findCloseTag (close : List Char) : List Char → Option (List Char)
  | [] => if close.isEmpty then some [] else none
  | c :: cs =>
    if ciPre close (c :: cs) then some ((c :: cs).drop close.length)
    else findCloseTag close cs

/-- `^OPEN .*? CLOSE (\s*)?` anchored at the start of `s`: the remainder
after the match, with the trailing `\s*` (greedy) consumed when the pattern
has one. -/
def matchTag (openT closeT : List Char) (trailWS : Bool) (s : List Char) :
    Option (List Char) :=
  if ciPre openT s then
    match findCloseTag closeT (s.drop openT.length) with
    | some rest => some (if trailWS then rest.dropWhile isSpaceChar else rest)
    | none => none
  else none

/-- `pattern.sub("", s)` for one anchored pattern: the remainder when it
matches at the start, `s` unchanged otherwise. -/
def applyPat (openT closeT : List Char) (trailWS : Bool) (s : List Char) :
    List Char :=
  (matchTag openT closeT trailWS s).getD s

/-- Python `str.strip()`. -/
def pyStrip (s : List Char) : List Char :=
  ((s.dropWhile isSpaceChar).reverse.dropWhile isSpaceChar).reverse

/-- `clean_reasoning_content(content)` (`response_parser.py` lines 67-87):
empty input is returned as-is; otherwise the four compiled patterns are
substituted in order — SGLang `<|system|>...<|/system|>\s*`, XML
`<system>...</system>\s*`, bracket `[SYSTEM]...[/SYSTEM]\s*`, plain
`System:...\n\n` — and the result is stripped. -/
def clean_reasoning_content (s : List Char) : List Char :=
  if s.isEmpty then s
  else
    let c1 := applyPat "<|system|>".toList "<|/system|>".toList true s
    let c2 := applyPat "<system>".toList "</system>".toList true c1
    let c3 := applyPat "[SYSTEM]".toList "[/SYSTEM]".toList true c2
    let c4 := applyPat "System:".toList "\n\n".toList false c3
    pyStrip c4

/-- Does any of the four patterns match at the start of `s`? -/
def matchesAny (s : List Char) : Bool :=
  (matchTag "<|system|>".toList "<|/system|>".toList true s).isSome
  || (matchTag "<system>".toList "</system>".toList true s).isSome
  || (matchTag "[SYSTEM]".toList "[/SYSTEM]".toList true s).isSome
  || (matchTag "System:".toList "\n\n".toList false s).isSome

/-- Does the opening tag of a pattern occur case-insensitively anywhere in
`s`?  (Used to state that a text contains none of the artifact patterns at
all, not merely none at its start.) -/
def hasOpenAnywhere (openT : List Char) : List Char → Bool
  | [] => ciPre openT []
  | c :: cs => ciPre openT (c :: cs) || hasOpenAnywhere openT cs

/-- No artifact pattern occurs anywhere in `s`, even partially matched: none
of the four opening tags occurs at any position. -/
def containsNoArtifact (s : List Char) : Bool :=
  !(hasOpenAnywhere "<|system|>".toList s
    || hasOpenAnywhere "<system>".toList s
    || hasOpenAnywhere "[SYSTEM]".toList s
    || hasOpenAnywhere "System:".toList s)

end ResponseParser

/-! ## Request-body `tools` field (`agent_engine.py` lines 150-159 and
260-268, `tools.py` lines 52-53) -/

/-- A registered tool as stored in the global registry: name, description
and the inferred parameter schema (held abstractly as its serialized
form). -/
structure RegEntry where
  name : String
  description : String
  parameters : String
deriving DecidableEq, Repr

/-- `Tool.to_dict()` (`tools.py` lines 12-20). -/
structure ToolDefDict where
  type : String
  fname : String
  fdescription : String
  fparameters : String
deriving DecidableEq, Repr

/-- `Tool.to_dict` applied to a registry entry. -/
def toolToDict (t : RegEntry) : ToolDefDict :=
  ⟨"function", t.name, t.description, t.parameters⟩

/-- `ToolRegistry.get_tool_definitions()` (`tools.py` lines 52-53): the
`to_dict` of every tool in the registry, in registration order. -/
def get_tool_definitions (tools : List (String × RegEntry)) : List ToolDefDict :=
  tools.map (fun p => toolToDict p.2)

/-- The `tools` field of the streaming request body (`agent_engine.py`
lines 150-159): set to the full global registry's definitions when the
engine's own `self.tools` list is truthy, else `None`; then the key is
deleted whenever the stored value is falsy (`None` or `[]`). -/
def bodyToolsStream (engineTools : List String) (reg : List (String × RegEntry)) :
    Option (List ToolDefDict) :=
  let t : Option (List ToolDefDict) :=
    if engineTools.isEmpty then none else some (get_tool_definitions reg)
  match t with
  | some l => if l.isEmpty then none else some l
  | none => none

/-- The `tools` field of the non-streaming request body (`agent_engine.py`
lines 260-268), built by the same two steps. -/
def bodyToolsSync (engineTools : List String) (reg : List (String × RegEntry)) :
    Option (List ToolDefDict) :=
  let t : Option (List ToolDefDict) :=
    if engineTools.isEmpty then none else some (get_tool_definitions reg)
  match t with
  | some l => if l.isEmpty then none else some l
  | none => none

/-! ## Concrete instances used in scenario theorems and witnesses -/

/-- The C1 scenario's tool-call fragment:
`{name: "read_file", arguments: '\x7b"filepath":"x.py"\x7d'}`. -/
def c1Frag : TCFragment :=
  ⟨some 0, some "call_1", some ⟨some "read_file", some "\x7b\"filepath\":\"x.py\"\x7d"⟩⟩

/-- The C1 scenario's two provider turns: one carrying a single tool call,
then one with plain content `"Done"`. -/
def c1Turns : List (List Chunk) :=
  [[⟨[⟨⟨none, some [c1Frag]⟩⟩]⟩], [⟨[⟨⟨some "Done", none⟩⟩]⟩]]

/-- A registry whose `read_file` returns a fixed file body. -/
def c1Reg : Registry := [("read_file", fun _ => .ok (.str "file contents"))]

/-- A configured system message. -/
def c1Msgs : List Message :=
  [{ role := "system", content := some "You are a helpful assistant." }]

/-- Fragment batches split across three `add_chunk` invocations (the shape
exercised by `tests/test_repro_features.py`). -/
def c2Batches : List (List TCFragment) :=
  [[⟨some 0, some "call_123", some ⟨some "read_", some ""⟩⟩],
   [⟨some 0, none, some ⟨some "file", some "\x7b\"path"⟩⟩],
   [⟨some 0, some "", some ⟨none, some "\": \"test.py\"\x7d"⟩⟩]]

/-- A model turn that always requests one tool call. -/
def c3Turn : List Chunk :=
  [⟨[⟨⟨none, some [⟨some 0, some "1", some ⟨some "read_file", some "\x7b\x7d"⟩⟩]⟩⟩]⟩]

/-- A concrete tool call used to exercise the denial path. -/
def c4Tc : ToolCallObj := ⟨some "id1", "function", ⟨"write_file", "\x7b\x7d"⟩⟩

/-- A registry whose tool returns a non-string Python value. -/
def c5Reg : Registry := [("seven", fun _ => .ok (.int 7))]

/-- A registry whose tool raises (modelled as `Except.error`). -/
def c5ErrReg : Registry := [("t", fun _ => .error "boom")]

/-- Whitespace-preceded artifact: the anchored patterns do not fire, the
strip exposes the artifact, and a second `clean` removes it. -/
def c7x0 : List Char := " <system>a</system>b".toList

/-- Pattern-free but unstripped text. -/
def c7x1 : List Char := " hello ".toList

/-- A fragment whose index 1 arrives first. -/
def c8Frag1 : TCFragment := ⟨some 1, some "B", some ⟨some "b", none⟩⟩

/-- A fragment whose index 0 arrives second. -/
def c8Frag0 : TCFragment := ⟨some 0, some "A", some ⟨some "a", none⟩⟩

/-- Provider behaviour 429, 429, then 200. -/
def c9Responses : Nat → HttpRes :=
  fun n => if n ≤ 1 then .status 429 "rate limited" else .status 200 "OK"

/-- Provider that always rate-limits. -/
def c9All429 : Nat → HttpRes := fun _ => .status 429 "rate limited"

/-- A one-tool global registry. -/
def c10Reg : List (String × RegEntry) :=
  [("read_file", ⟨"read_file", "Reads a file", "schema"⟩)]

/-! ## Helper lemmas -/

theorem truthy_false_getD (o : Option String) (h : truthy o = false) : o.getD "" = "" := by
  cases o with
  | none => rfl
  | some s =>
    simp only [truthy, Bool.not_eq_false'] at h
    simpa using (String.isEmpty_iff s).mp h

theorem truthy_some_of_true (o : Option String) (h : truthy o = true) : ∃ s, o = some s := by
  cases o with
  | none => simp [truthy] at h
  | some s => exact ⟨s, rfl⟩

namespace ToolCallAggregator

theorem updSlot_id (slot : ToolCallObj) (f : TCFragment) :
    (updSlot slot f).id = if truthy f.id then f.id else slot.id := by
  unfold updSlot
  cases h1 : truthy f.id <;> cases h2 : truthy (fdelta f).name <;>
    cases h3 : truthy (fdelta f).arguments <;> simp [h1, h2, h3]

theorem updSlot_type (slot : ToolCallObj) (f : TCFragment) :
    (updSlot slot f).type = slot.type := by
  unfold updSlot
  cases h1 : truthy f.id <;> cases h2 : truthy (fdelta f).name <;>
    cases h3 : truthy (fdelta f).arguments <;> simp [h1, h2, h3]

theorem updSlot_name (slot : ToolCallObj) (f : TCFragment) :
    (updSlot slot f).function.name = slot.function.name ++ nameDelta f := by
  unfold updSlot
  cases h2 : truthy (fdelta f).name with
  | true =>
    cases h1 : truthy f.id <;> cases h3 : truthy (fdelta f).arguments <;>
      simp [h1, h2, h3]
  | false =>
    cases h1 : truthy f.id <;> cases h3 : truthy (fdelta f).arguments <;>
      simp [h1, h2, h3, nameDelta, truthy_false_getD _ h2, String.append_empty]

theorem updSlot_args (slot : ToolCallObj) (f : TCFragment) :
    (updSlot slot f).function.arguments = slot.function.arguments ++ argsDelta f := by
  unfold updSlot
  cases h3 : truthy (fdelta f).arguments with
  | true =>
    cases h1 : truthy f.id <;> cases h2 : truthy (fdelta f).name <;>
      simp [h1, h2, h3]
  | false =>
    cases h1 : truthy f.id <;> cases h2 : truthy (fdelta f).name <;>
      simp [h1, h2, h3, argsDelta, truthy_false_getD _ h3, String.append_empty]

theorem foldl_strConcat_shift (g : TCFragment → String) :
    ∀ (fs : List TCFragment) (a : String),
      fs.foldl (fun x f => x ++ g f) a = a ++ fs.foldl (fun x f => x ++ g f) "" := by
  intro fs
  induction fs with
  | nil => intro a; simp [String.append_empty]
  | cons f fs ih =>
    intro a
    simp only [List.foldl_cons]
    rw [ih (a ++ g f), ih ("" ++ g f)]
    simp [String.append_assoc]

theorem foldl_updSlot_name :
    ∀ (fs : List TCFragment) (slot : ToolCallObj),
      (List.foldl updSlot slot fs).function.name
        = slot.function.name ++ concatNames fs := by
  intro fs
  induction fs with
  | nil => intro slot; simp [concatNames, String.append_empty]
  | cons f fs ih =>
    intro slot
    simp only [List.foldl_cons, concatNames]
    rw [ih (updSlot slot f), updSlot_name]
    show slot.function.name ++ nameDelta f ++ concatNames fs = _
    rw [foldl_strConcat_shift _ fs ("" ++ nameDelta f)]
    simp [String.append_assoc, concatNames]

theorem foldl_updSlot_args :
    ∀ (fs : List TCFragment) (slot : ToolCallObj),
      (List.foldl updSlot slot fs).function.arguments
        = slot.function.arguments ++ concatArgs fs := by
  intro fs
  induction fs with
  | nil => intro slot; simp [concatArgs, String.append_empty]
  | cons f fs ih =>
    intro slot
    simp only [List.foldl_cons, concatArgs]
    rw [ih (updSlot slot f), updSlot_args]
    show slot.function.arguments ++ argsDelta f ++ concatArgs fs = _
    rw [foldl_strConcat_shift _ fs ("" ++ argsDelta f)]
    simp [String.append_assoc, concatArgs]

theorem foldl_updSlot_type :
    ∀ (fs : List TCFragment) (slot : ToolCallObj),
      (List.foldl updSlot slot fs).type = slot.type := by
  intro fs
  induction fs with
  | nil => intro slot; rfl
  | cons f fs ih => intro slot; simp only [List.foldl_cons]; rw [ih, updSlot_type]

theorem foldl_updSlot_id :
    ∀ (fs : List TCFragment) (slot : ToolCallObj),
      (List.foldl updSlot slot fs).id
        = fs.foldl (fun a f => if truthy f.id then f.id else a) slot.id := by
  intro fs
  induction fs with
  | nil => intro slot; rfl
  | cons f fs ih =>
    intro slot
    simp only [List.foldl_cons]
    rw [ih, updSlot_id]

theorem lastNE_shift :
    ∀ (fs : List TCFragment) (a : Option String),
      fs.foldl (fun x f => if truthy f.id then f.id else x) a
        = match lastNonEmptyId fs with
          | some v => some v
          | none => a := by
  intro fs
  induction fs with
  | nil => intro a; rfl
  | cons f fs ih =>
    intro a
    simp only [List.foldl_cons, lastNonEmptyId]
    rw [ih]
    show _ = match fs.foldl (fun x f => if truthy f.id then f.id else x)
        (if truthy f.id then f.id else none) with
      | some v => some v
      | none => a
    rw [ih (if truthy f.id then f.id else none)]
    cases hl : lastNonEmptyId fs with
    | some v => simp
    | none =>
      cases ht : truthy f.id with
      | true =>
        obtain ⟨s, hs⟩ := truthy_some_of_true _ ht
        simp [hs]
      | false => simp

end ToolCallAggregator

theorem toolCallObjEq (x y : ToolCallObj) (h1 : x.id = y.id) (h2 : x.type = y.type)
    (h3 : x.function.name = y.function.name)
    (h4 : x.function.arguments = y.function.arguments) : x = y := by
  cases x with
  | mk xi xt xf =>
    cases xf
    cases y with
    | mk yi yt yf =>
      cases yf
      simp only at h1 h2 h3 h4
      simp [h1, h2, h3, h4]

namespace ToolCallAggregator

theorem foldl_step_single (i : Nat) :
    ∀ (fs : List TCFragment) (slot : ToolCallObj), (∀ f ∈ fs, fragIdx f = i) →
      List.foldl step [(i, slot)] fs = [(i, List.foldl updSlot slot fs)] := by
  intro fs
  induction fs with
  | nil => intro slot _; rfl
  | cons f fs ih =>
    intro slot h
    have hf : fragIdx f = i := h f (List.mem_cons_self f fs)
    have hstep : step [(i, slot)] f = [(i, updSlot slot f)] := by
      simp [step, hasKey, updateAt, hf]
    simp only [List.foldl_cons, hstep]
    exact ih (updSlot slot f) (fun g hg => h g (List.mem_cons_of_mem f hg))

theorem add_chunk_single_flat (i : Nat) (fs : List TCFragment)
    (h : ∀ f ∈ fs, fragIdx f = i) (hne : fs ≠ []) :
    add_chunk [] fs
      = [(i, ⟨finalId fs, "function", ⟨concatNames fs, concatArgs fs⟩⟩)] := by
  cases fs with
  | nil => exact absurd rfl hne
  | cons f0 rest =>
    have hf0 : fragIdx f0 = i := h f0 (List.mem_cons_self f0 rest)
    have hstep : step [] f0 = [(i, updSlot (initSlot f0) f0)] := by
      simp [step, hasKey, updateAt, hf0]
    have hrest : ∀ g ∈ rest, fragIdx g = i :=
      fun g hg => h g (List.mem_cons_of_mem f0 hg)
    have : add_chunk [] (f0 :: rest) = [(i, List.foldl updSlot (initSlot f0) (f0 :: rest))] := by
      simp only [add_chunk, List.foldl_cons, hstep]
      exact foldl_step_single i rest (updSlot (initSlot f0) f0) hrest
    rw [this]
    refine congrArg (fun s => [(i, s)]) (toolCallObjEq _ _ ?_ ?_ ?_ ?_)
    · rw [foldl_updSlot_id, lastNE_shift]
      show (match lastNonEmptyId (f0 :: rest) with
            | some v => some v
            | none => (initSlot f0).id) = finalId (f0 :: rest)
      cases hl : lastNonEmptyId (f0 :: rest) <;> simp [finalId, hl, initSlot, firstId]
    · rw [foldl_updSlot_type]; rfl
    · rw [foldl_updSlot_name]; show "" ++ _ = _; rw [String.empty_append]
    · rw [foldl_updSlot_args]; show "" ++ _ = _; rw [String.empty_append]

theorem foldl_add_chunk_flatten :
    ∀ (batches : List (List TCFragment)) (st : AggState),
      List.foldl add_chunk st batches = List.foldl step st batches.flatten := by
  intro batches
  induction batches with
  | nil => intro st; rfl
  | cons b bs ih =>
    intro st
    simp only [List.foldl_cons, List.flatten_cons, List.foldl_append]
    exact ih (add_chunk st b)

theorem updateAt_keys (st : AggState) (k : Nat) (f : TCFragment) :
    (updateAt st k f).map Prod.fst = st.map Prod.fst := by
  unfold updateAt
  induction st with
  | nil => rfl
  | cons p ps ih =>
    simp only [List.map_cons]
    rw [ih]
    congr 1
    by_cases hp : p.1 = k <;> simp [hp]

theorem hasKey_eq_mem (st : AggState) (k : Nat) :
    hasKey st k = true ↔ k ∈ st.map Prod.fst := by
  induction st with
  | nil => simp [hasKey]
  | cons p ps ih =>
    simp only [hasKey, List.any_cons, Bool.or_eq_true, beq_iff_eq,
      List.map_cons, List.mem_cons] at ih ⊢
    constructor
    · rintro (h | h)
      · exact Or.inl h.symm
      · exact Or.inr (ih.mp h)
    · rintro (h | h)
      · exact Or.inl h.symm
      · exact Or.inr (ih.mpr h)

theorem step_keys (st : AggState) (f : TCFragment) :
    (step st f).map Prod.fst
      = if fragIdx f ∈ st.map Prod.fst then st.map Prod.fst
        else st.map Prod.fst ++ [fragIdx f] := by
  unfold step
  cases hh : hasKey st (fragIdx f) with
  | true => simp [hh, updateAt_keys, (hasKey_eq_mem st (fragIdx f)).mp hh]
  | false =>
    have hm : fragIdx f ∉ st.map Prod.fst := by
      intro hmem
      have h2 := (hasKey_eq_mem st (fragIdx f)).mpr hmem
      exact absurd (h2.symm.trans hh) (by decide)
    simp [hh, updateAt_keys, hm]

theorem dedupF_congr :
    ∀ (l s₁ s₂ : List Nat), (∀ x, x ∈ s₁ ↔ x ∈ s₂) → dedupF s₁ l = dedupF s₂ l := by
  intro l
  induction l with
  | nil => intro s₁ s₂ _; rfl
  | cons x xs ih =>
    intro s₁ s₂ h
    simp only [dedupF]
    by_cases hx : x ∈ s₁
    · rw [if_pos hx, if_pos ((h x).mp hx), ih s₁ s₂ h]
    · rw [if_neg hx, if_neg (fun hc => hx ((h x).mpr hc))]
      rw [ih (x :: s₁) (x :: s₂) (fun y => by simp [h y])]

theorem keys_foldl_step :
    ∀ (fs : List TCFragment) (st : AggState),
      (List.foldl step st fs).map Prod.fst
        = st.map Prod.fst ++ dedupF (st.map Prod.fst) (fs.map fragIdx) := by
  intro fs
  induction fs with
  | nil => intro st; simp [dedupF]
  | cons f fs ih =>
    intro st
    simp only [List.foldl_cons, List.map_cons, dedupF]
    rw [ih (step st f), step_keys]
    by_cases hm : fragIdx f ∈ st.map Prod.fst
    · rw [if_pos hm, if_pos hm]
    · rw [if_neg hm, if_neg hm]
      rw [dedupF_congr (fs.map fragIdx) (st.map Prod.fst ++ [fragIdx f])
        (fragIdx f :: st.map Prod.fst) (fun y => by simp [List.mem_append, or_comm])]
      simp

end ToolCallAggregator

/-! ## Claim theorems: response parser aggregation (C2, C8) -/

open ToolCallAggregator in
/-- C2: for any fragment batches fed across any number of `add_chunk`
invocations, all sharing one resolved index, the aggregator holds exactly
one slot whose `name` and `arguments` are the exact concatenation of the
deltas in arrival order, and whose `id` is the last non-empty id when one
was supplied (otherwise the first fragment's). -/
theorem c2_aggregator_reassembles (batches : List (List TCFragment)) (i : Nat)
    (h1 : ∀ f ∈ batches.flatten, fragIdx f = i) (h2 : batches.flatten ≠ []) :
    List.foldl add_chunk [] batches
      = [(i, ⟨finalId batches.flatten, "function",
              ⟨concatNames batches.flatten, concatArgs batches.flatten⟩⟩)]
    ∧ ∀ v, lastNonEmptyId batches.flatten = some v
        → finalId batches.flatten = some v := by
  constructor
  · rw [foldl_add_chunk_flatten]
    exact add_chunk_single_flat i batches.flatten h1 h2
  · intro v hv
    simp [finalId, hv]

open ToolCallAggregator in
/-- Witness for C2 at the fragment batches of `tests/test_repro_features.py`:
the three-way split of a `read_file` call reassembles exactly. -/
theorem c2_aggregator_reassembles_witness :
    List.foldl add_chunk [] c2Batches
      = [(0, ⟨some "call_123", "function",
              ⟨"read_file", "\x7b\"path\": \"test.py\"\x7d"⟩⟩)] := by
  have h := c2_aggregator_reassembles c2Batches 0 (by decide) (by decide)
  exact h.1.trans (by decide)

open ToolCallAggregator in
/-- C8 counterexample: when index 1 arrives before index 0,
`get_complete_calls` returns the slots in insertion order (1 before 0),
which is not ascending index order. -/
theorem c8_insertion_order_not_index_order :
    get_complete_calls (add_chunk [] [c8Frag1, c8Frag0])
      ≠ get_calls_sorted_spec (add_chunk [] [c8Frag1, c8Frag0])
    ∧ get_complete_calls (add_chunk [] [c8Frag1, c8Frag0])
      = [⟨some "B", "function", ⟨"b", ""⟩⟩, ⟨some "A", "function", ⟨"a", ""⟩⟩] := by
  constructor <;> decide

open ToolCallAggregator in
/-- C8 amended: `get_complete_calls` returns all accumulated slots in the
order in which their indices first appeared (Python dict insertion order):
the state's keys are exactly the first-occurrence subsequence of the arrival
index sequence. -/
theorem c8_first_appearance_order (batches : List (List TCFragment)) :
    get_complete_calls (List.foldl add_chunk [] batches)
      = (List.foldl add_chunk [] batches).map Prod.snd
    ∧ (List.foldl add_chunk [] batches).map Prod.fst
      = dedupF [] (batches.flatten.map fragIdx) := by
  refine ⟨rfl, ?_⟩
  rw [foldl_add_chunk_flatten]
  simpa using keys_foldl_step batches.flatten []

/-! ## Claim theorems: tool registry dispatch (C5) -/

/-- C5 counterexample: for a registered tool whose body returns the integer
`7`, `call_tool` returns the raw integer value, not its stringification —
the `str(result)` coercion does not happen inside `call_tool`. -/
theorem c5_call_tool_returns_raw_result :
    call_tool c5Reg "seven" "\x7b\x7d" = .int 7
    ∧ call_tool c5Reg "seven" "\x7b\x7d"
        ≠ .str (pyStr (call_tool c5Reg "seven" "\x7b\x7d")) := by
  constructor
  · rfl
  · decide

/-- C5 amended: `call_tool` never raises — an unregistered name yields the
fixed not-found error string, an exception while parsing the arguments or
inside the tool body yields an error string embedding the exception message,
and success returns the tool's result unconverted (the `str(result)`
coercion happens at the agent-engine call site instead). -/
theorem c5_call_tool_error_handling (reg : Registry) (name args : String) :
    (lookupTool reg name = none →
      call_tool reg name args = .str ("Error: Tool " ++ name ++ " not found."))
    ∧ ∀ f, lookupTool reg name = some f →
        (∀ e, f args = .error e →
          call_tool reg name args
            = .str ("Error executing tool " ++ name ++ ": " ++ e))
        ∧ (∀ v, f args = .ok v → call_tool reg name args = v) := by
  constructor
  · intro h
    simp [call_tool, h]
  · intro f hf
    constructor
    · intro e he
      simp [call_tool, hf, he]
    · intro v hv
      simp [call_tool, hf, hv]

/-- Witness for C5 at a missing tool, a raising tool and a succeeding
tool. -/
theorem c5_call_tool_error_handling_witness :
    call_tool [] "missing" "x" = .str "Error: Tool missing not found."
    ∧ call_tool c5ErrReg "t" "x" = .str "Error executing tool t: boom"
    ∧ call_tool c5Reg "seven" "y" = .int 7 := by
  refine ⟨?_, ?_, ?_⟩
  · exact ((c5_call_tool_error_handling [] "missing" "x").1 rfl).trans (by decide)
  · exact (((c5_call_tool_error_handling c5ErrReg "t" "x").2 _ rfl).1 "boom" rfl).trans
      (by decide)
  · exact ((c5_call_tool_error_handling c5Reg "seven" "y").2 _ rfl).2 (.int 7) rfl

/-! ## Claim theorems: reasoning-content cleaning (C7) -/

namespace ResponseParser

theorem dw_head_false (p : Char → Bool) (c : Char) (l : List Char)
    (h : List.dropWhile p (c :: l) = c :: l) : p c = false := by
  cases hc : p c with
  | false => rfl
  | true =>
    rw [List.dropWhile_cons, hc] at h
    simp only [if_true] at h
    have hlen := List.IsSuffix.length_le (List.dropWhile_suffix p (l := l))
    rw [h] at hlen
    exact absurd hlen (by simp)

theorem dw_front (p : Char → Bool) (a b : List Char)
    (h : List.dropWhile p (a ++ b) = a ++ b) : List.dropWhile p a = a := by
  cases a with
  | nil => rfl
  | cons c a' =>
    rw [List.cons_append] at h
    have hc := dw_head_false p c (a' ++ b) h
    rw [List.dropWhile_cons, hc]
    simp

theorem pyStrip_idem (s : List Char) : pyStrip (pyStrip s) = pyStrip s := by
  have f1 := List.dropWhile_idempotent isSpaceChar s
  have f2 := List.takeWhile_append_dropWhile isSpaceChar (s.dropWhile isSpaceChar).reverse
  have f2' : s.dropWhile isSpaceChar
      = ((s.dropWhile isSpaceChar).reverse.dropWhile isSpaceChar).reverse
        ++ ((s.dropWhile isSpaceChar).reverse.takeWhile isSpaceChar).reverse := by
    have h3 := congrArg List.reverse f2
    rw [List.reverse_append, List.reverse_reverse] at h3
    exact h3.symm
  have f3 := dw_front isSpaceChar
    ((s.dropWhile isSpaceChar).reverse.dropWhile isSpaceChar).reverse
    ((s.dropWhile isSpaceChar).reverse.takeWhile isSpaceChar).reverse
    (by rw [← f2']; exact f1)
  unfold pyStrip
  rw [f3, List.reverse_reverse, List.dropWhile_idempotent]

theorem applyPat_of_none (o c : List Char) (w : Bool) (s : List Char)
    (h : matchTag o c w s = none) : applyPat o c w s = s := by
  simp [applyPat, h]

theorem isSome_false_eq_none (o : Option (List Char)) (h : o.isSome = false) : o = none := by
  cases o with
  | none => rfl
  | some v => simp at h

theorem clean_of_noMatch (s : List Char) (h1 : matchesAny s = false)
    (h2 : pyStrip s = s) : clean_reasoning_content s = s := by
  by_cases he : s.isEmpty = true
  · simp [clean_reasoning_content, he]
  · simp only [matchesAny, Bool.or_eq_false_iff] at h1
    have m1 := isSome_false_eq_none _ h1.1.1.1
    have m2 := isSome_false_eq_none _ h1.1.1.2
    have m3 := isSome_false_eq_none _ h1.1.2
    have m4 := isSome_false_eq_none _ h1.2
    unfold clean_reasoning_content
    rw [if_neg he]
    show pyStrip (applyPat "System:".toList "\n\n".toList false
      (applyPat "[SYSTEM]".toList "[/SYSTEM]".toList true
        (applyPat "<system>".toList "</system>".toList true
          (applyPat "<|system|>".toList "<|/system|>".toList true s)))) = s
    rw [applyPat_of_none _ _ _ _ m1, applyPat_of_none _ _ _ _ m2,
      applyPat_of_none _ _ _ _ m3, applyPat_of_none _ _ _ _ m4, h2]

theorem pyStrip_clean (s : List Char) :
    pyStrip (clean_reasoning_content s) = clean_reasoning_content s := by
  by_cases he : s.isEmpty = true
  · have hs : s = [] := List.isEmpty_iff.mp he
    subst hs
    rfl
  · unfold clean_reasoning_content
    rw [if_neg he]
    exact pyStrip_idem _

theorem matchTag_none_of_noOpen (o c : List Char) (w : Bool) :
    ∀ s : List Char, hasOpenAnywhere o s = false → matchTag o c w s = none := by
  intro s h
  cases s with
  | nil =>
    simp only [hasOpenAnywhere] at h
    simp [matchTag, h]
  | cons a as =>
    simp only [hasOpenAnywhere, Bool.or_eq_false_iff] at h
    simp [matchTag, h.1]

end ResponseParser

open ResponseParser in
/-- C7 counterexample: `clean_reasoning_content` is not idempotent — on
`" <system>a</system>b"` the first pass only strips the leading blank (the
anchored pattern does not fire), and the second pass then removes the
artifact; and it is not a no-op on the artifact-free `" hello "`, which it
strips. -/
theorem c7_clean_not_idempotent :
    clean_reasoning_content (clean_reasoning_content c7x0)
      ≠ clean_reasoning_content c7x0
    ∧ containsNoArtifact c7x1 = true
    ∧ clean_reasoning_content c7x1 ≠ c7x1 := by
  refine ⟨by decide, by decide, by decide⟩

open ResponseParser in
/-- C7 amended: `clean_reasoning_content` is idempotent on every input whose
cleaned form has no artifact pattern left at its start, and it is a no-op
exactly on text that is already stripped and starts with no artifact
pattern (in particular on stripped text containing no artifact opening tag
anywhere). -/
theorem c7_clean_conditionally_idempotent (x : List Char) :
    (matchesAny (clean_reasoning_content x) = false →
      clean_reasoning_content (clean_reasoning_content x)
        = clean_reasoning_content x)
    ∧ (pyStrip x = x → matchesAny x = false → clean_reasoning_content x = x)
    ∧ (containsNoArtifact x = true → matchesAny x = false) := by
  refine ⟨?_, ?_, ?_⟩
  · intro h
    exact clean_of_noMatch _ h (pyStrip_clean x)
  · intro h1 h2
    exact clean_of_noMatch x h2 h1
  · intro h
    simp only [containsNoArtifact, Bool.not_eq_true', Bool.or_eq_false_iff] at h
    obtain ⟨⟨⟨ha, hb⟩, hc⟩, hd⟩ := h
    have n1 := matchTag_none_of_noOpen "<|system|>".toList "<|/system|>".toList true x ha
    have n2 := matchTag_none_of_noOpen "<system>".toList "</system>".toList true x hb
    have n3 := matchTag_none_of_noOpen "[SYSTEM]".toList "[/SYSTEM]".toList true x hc
    have n4 := matchTag_none_of_noOpen "System:".toList "\n\n".toList false x hd
    simp only [matchesAny, n1, n2, n3, n4, Option.isSome_none, Bool.or_self]

open ResponseParser in
/-- Witness for C7 at the plain text `"hello"`. -/
theorem c7_clean_conditionally_idempotent_witness :
    clean_reasoning_content (clean_reasoning_content "hello".toList)
      = clean_reasoning_content "hello".toList
    ∧ clean_reasoning_content "hello".toList = "hello".toList := by
  constructor
  · exact (c7_clean_conditionally_idempotent "hello".toList).1 (by decide)
  · exact (c7_clean_conditionally_idempotent "hello".toList).2.1 (by decide) (by decide)

/-! ## Claim theorems: request-body tools field (C10) -/

/-- C10: the engine's own `tools` list acts purely as an on/off switch —
when it is non-empty the request body's `tools` field carries the
definitions of every tool in the global registry (omitted only if the
registry itself is empty), when it is empty the field is omitted entirely,
the non-streaming body builder agrees with the streaming one, and the field
never depends on which names the engine's list holds. -/
theorem c10_tools_switch (engineTools : List String) (reg : List (String × RegEntry)) :
    bodyToolsStream engineTools reg
      = (if engineTools.isEmpty || reg.isEmpty then none
         else some (get_tool_definitions reg))
    ∧ bodyToolsSync engineTools reg = bodyToolsStream engineTools reg
    ∧ ∀ other : List String, other.isEmpty = false → engineTools.isEmpty = false →
        bodyToolsStream other reg = bodyToolsStream engineTools reg := by
  refine ⟨?_, ?_, ?_⟩
  · cases engineTools <;> cases reg <;>
      simp [bodyToolsStream, get_tool_definitions]
  · cases engineTools <;> cases reg <;>
      simp [bodyToolsStream, bodyToolsSync]
  · intro other h1 h2
    cases other with
    | nil => simp at h1
    | cons o os =>
      cases engineTools with
      | nil => simp at h2
      | cons e es => rfl

/-- Witness for C10: two different non-empty engine tool lists produce the
same `tools` field — the full one-tool registry's definitions. -/
theorem c10_tools_switch_witness :
    bodyToolsStream ["alpha"] c10Reg = bodyToolsStream ["beta", "gamma"] c10Reg
    ∧ bodyToolsStream ["beta", "gamma"] c10Reg
        = some [⟨"function", "read_file", "Reads a file", "schema"⟩] := by
  constructor
  · exact (c10_tools_switch ["beta", "gamma"] c10Reg).2.2 ["alpha"] rfl rfl
  · rfl

/-! ## Agent-engine unfolding lemmas -/

namespace AgentEngine

theorem runStreamLoop_zero (cb : Option (String → String → Bool)) (reg : Registry)
    (turns : List (List Chunk)) (msgs : List Message) :
    runStreamLoop cb reg 0 turns msgs = ⟨[safetyToken], msgs, 0⟩ := rfl

theorem runStreamLoop_succ_pure (cb : Option (String → String → Bool)) (reg : Registry)
    (fuel : Nat) (turns : List (List Chunk)) (msgs : List Message)
    (hc : (processTurn (turns.headD [])).chunks.isEmpty = true) :
    runStreamLoop cb reg (fuel + 1) turns msgs
      = ⟨(processTurn (turns.headD [])).tokens,
         if (processTurn (turns.headD [])).full_content.isEmpty then msgs
         else msgs ++ [{ role := "assistant",
                         content := some (processTurn (turns.headD [])).full_content }],
         1⟩ := by
  simp only [runStreamLoop]
  rw [if_pos hc]

theorem runStreamLoop_succ_tools (cb : Option (String → String → Bool)) (reg : Registry)
    (fuel : Nat) (turns : List (List Chunk)) (msgs : List Message)
    (hc : (processTurn (turns.headD [])).chunks.isEmpty = false) :
    runStreamLoop cb reg (fuel + 1) turns msgs
      = ⟨(processTurn (turns.headD [])).tokens
           ++ (processToolCalls cb reg (turnToolCalls (processTurn (turns.headD [])))).tokens
           ++ (runStreamLoop cb reg fuel turns.tail
                (msgs ++ [turnAssistantMsg (processTurn (turns.headD []))]
                  ++ (processToolCalls cb reg
                       (turnToolCalls (processTurn (turns.headD [])))).msgs)).tokens,
         (runStreamLoop cb reg fuel turns.tail
           (msgs ++ [turnAssistantMsg (processTurn (turns.headD []))]
             ++ (processToolCalls cb reg
                  (turnToolCalls (processTurn (turns.headD [])))).msgs)).msgs,
         (runStreamLoop cb reg fuel turns.tail
           (msgs ++ [turnAssistantMsg (processTurn (turns.headD []))]
             ++ (processToolCalls cb reg
                  (turnToolCalls (processTurn (turns.headD [])))).msgs)).calls + 1⟩ := by
  simp only [runStreamLoop]
  rw [if_neg (by rw [hc]; decide)]

theorem processToolCalls_from (cb : Option (String → String → Bool)) (reg : Registry) :
    ∀ (tcs : List ToolCallObj) (acc : ToolStep),
      List.foldl
        (fun acc tc =>
          let s := processToolCall cb reg tc
          (⟨acc.tokens ++ s.tokens, acc.msgs ++ s.msgs,
            acc.executed ++ s.executed⟩ : ToolStep)) acc tcs
      = ⟨acc.tokens ++ (processToolCalls cb reg tcs).tokens,
         acc.msgs ++ (processToolCalls cb reg tcs).msgs,
         acc.executed ++ (processToolCalls cb reg tcs).executed⟩ := by
  intro tcs
  induction tcs with
  | nil =>
    intro acc
    cases acc
    simp [processToolCalls]
  | cons tc tcs ih =>
    intro acc
    simp only [List.foldl_cons]
    rw [ih]
    show (⟨_, _, _⟩ : ToolStep) = _
    have hrhs : processToolCalls cb reg (tc :: tcs)
        = List.foldl
            (fun acc tc =>
              let s := processToolCall cb reg tc
              (⟨acc.tokens ++ s.tokens, acc.msgs ++ s.msgs,
                acc.executed ++ s.executed⟩ : ToolStep))
            ⟨[] ++ (processToolCall cb reg tc).tokens,
             [] ++ (processToolCall cb reg tc).msgs,
             [] ++ (processToolCall cb reg tc).executed⟩ tcs := rfl
    rw [hrhs, ih]
    simp [List.append_assoc]

theorem processToolCalls_append (cb : Option (String → String → Bool)) (reg : Registry)
    (a b : List ToolCallObj) :
    processToolCalls cb reg (a ++ b)
      = ⟨(processToolCalls cb reg a).tokens ++ (processToolCalls cb reg b).tokens,
         (processToolCalls cb reg a).msgs ++ (processToolCalls cb reg b).msgs,
         (processToolCalls cb reg a).executed ++ (processToolCalls cb reg b).executed⟩ := by
  show List.foldl _ _ (a ++ b) = _
  rw [List.foldl_append]
  exact processToolCalls_from cb reg b _

theorem processToolCalls_cons (cb : Option (String → String → Bool)) (reg : Registry)
    (tc : ToolCallObj) (tcs : List ToolCallObj) :
    processToolCalls cb reg (tc :: tcs)
      = ⟨(processToolCall cb reg tc).tokens ++ (processToolCalls cb reg tcs).tokens,
         (processToolCall cb reg tc).msgs ++ (processToolCalls cb reg tcs).msgs,
         (processToolCall cb reg tc).executed ++ (processToolCalls cb reg tcs).executed⟩ := by
  have h := processToolCalls_append cb reg [tc] tcs
  simp only [List.singleton_append] at h
  rw [h]
  have h1 : processToolCalls cb reg [tc]
      = ⟨[] ++ (processToolCall cb reg tc).tokens,
         [] ++ (processToolCall cb reg tc).msgs,
         [] ++ (processToolCall cb reg tc).executed⟩ := rfl
  rw [h1]
  simp

theorem run_stream_def (cb : Option (String → String → Bool)) (reg : Registry)
    (turns : List (List Chunk)) (msgs : List Message) (u : String) :
    run_stream cb reg turns msgs u
      = runStreamLoop cb reg 10 turns
          (msgs ++ [{ role := "user", content := some u }]) := rfl

theorem runStreamLoop_msgs_extends (cb : Option (String → String → Bool)) (reg : Registry) :
    ∀ (fuel : Nat) (turns : List (List Chunk)) (msgs : List Message),
      ∃ tail, (runStreamLoop cb reg fuel turns msgs).msgs = msgs ++ tail := by
  intro fuel
  induction fuel with
  | zero =>
    intro turns msgs
    exact ⟨[], by simp [runStreamLoop_zero]⟩
  | succ n ih =>
    intro turns msgs
    cases hc : (processTurn (turns.headD [])).chunks.isEmpty with
    | true =>
      rw [runStreamLoop_succ_pure cb reg n turns msgs hc]
      by_cases hf : (processTurn (turns.headD [])).full_content.isEmpty = true
      · exact ⟨[], by rw [if_pos hf]; simp⟩
      · refine ⟨[({ role := "assistant",
                    content := some (processTurn (turns.headD [])).full_content }
                   : Message)], ?_⟩
        rw [if_neg hf]
    | false =>
      rw [runStreamLoop_succ_tools cb reg n turns msgs hc]
      obtain ⟨t', ht⟩ := ih turns.tail
        (msgs ++ [turnAssistantMsg (processTurn (turns.headD []))]
          ++ (processToolCalls cb reg (turnToolCalls (processTurn (turns.headD [])))).msgs)
      refine ⟨[turnAssistantMsg (processTurn (turns.headD []))]
          ++ (processToolCalls cb reg (turnToolCalls (processTurn (turns.headD [])))).msgs
          ++ t', ?_⟩
      show (runStreamLoop cb reg n turns.tail
        (msgs ++ [turnAssistantMsg (processTurn (turns.headD []))]
          ++ (processToolCalls cb reg (turnToolCalls (processTurn (turns.headD [])))).msgs)).msgs
        = _
      rw [ht]
      simp [List.append_assoc]

theorem runStreamLoop_calls_le (cb : Option (String → String → Bool)) (reg : Registry) :
    ∀ (fuel : Nat) (turns : List (List Chunk)) (msgs : List Message),
      (runStreamLoop cb reg fuel turns msgs).calls ≤ fuel := by
  intro fuel
  induction fuel with
  | zero =>
    intro turns msgs
    simp [runStreamLoop_zero]
  | succ n ih =>
    intro turns msgs
    cases hc : (processTurn (turns.headD [])).chunks.isEmpty with
    | true =>
      rw [runStreamLoop_succ_pure cb reg n turns msgs hc]
      show 1 ≤ n + 1
      omega
    | false =>
      rw [runStreamLoop_succ_tools cb reg n turns msgs hc]
      show (runStreamLoop cb reg n turns.tail _).calls + 1 ≤ n + 1
      exact Nat.succ_le_succ (ih turns.tail _)

theorem runStreamLoop_exhaust (cb : Option (String → String → Bool)) (reg : Registry) :
    ∀ (fuel : Nat) (turns : List (List Chunk)) (msgs : List Message),
      fuel ≤ turns.length →
      (∀ t ∈ turns.take fuel, (processTurn t).chunks.isEmpty = false) →
      (runStreamLoop cb reg fuel turns msgs).calls = fuel
      ∧ (runStreamLoop cb reg fuel turns msgs).tokens.getLast? = some safetyToken := by
  intro fuel
  induction fuel with
  | zero =>
    intro turns msgs _ _
    exact ⟨rfl, rfl⟩
  | succ n ih =>
    intro turns msgs hlen hall
    cases turns with
    | nil => simp at hlen
    | cons tr trs =>
      have hc : (processTurn ((tr :: trs).headD [])).chunks.isEmpty = false := by
        apply hall
        rw [List.take_succ_cons]
        exact List.mem_cons_self tr (trs.take n)
      have ihh := ih trs
        (msgs ++ [turnAssistantMsg (processTurn tr)]
          ++ (processToolCalls cb reg (turnToolCalls (processTurn tr))).msgs)
        (by simpa using Nat.lt_succ_iff.mp (Nat.lt_of_lt_of_le (Nat.lt_succ_self n) hlen))
        (fun t htm => hall t (by rw [List.take_succ_cons]; exact List.mem_cons_of_mem tr htm))
      rw [runStreamLoop_succ_tools cb reg n (tr :: trs) msgs hc]
      simp only [List.headD_cons, List.tail_cons]
      constructor
      · rw [ihh.1]
      · have hne : (runStreamLoop cb reg n trs
            (msgs ++ [turnAssistantMsg (processTurn tr)]
              ++ (processToolCalls cb reg (turnToolCalls (processTurn tr))).msgs)).tokens
              ≠ [] := by
          intro h0
          have h2 := ihh.2
          rw [h0] at h2
          cases h2
        rw [List.getLast?_append_of_ne_nil _ hne]
        exact ihh.2

end AgentEngine

/-! ## Claim theorems: agent engine (C1, C3, C4, C6) -/

open AgentEngine in
/-- C1 (code evaluation at the failing input): in the end-to-end scenario —
one turn with the single `read_file` tool call, then a turn with content
`"Done"` — `run` returns the tool progress token concatenated with
`"Done"`, not `"Done"` alone, because `run_stream` yields the progress
notice as a plain string; the conversation history does end as system, user,
assistant-with-tool_calls, tool result, assistant("Done"). -/
theorem c1_run_includes_tool_notice :
    run none c1Reg c1Turns c1Msgs "hi"
      = "\n[dim]Calling tool: read_file...[/dim]\nDone"
    ∧ run none c1Reg c1Turns c1Msgs "hi" ≠ "Done"
    ∧ (run_stream none c1Reg c1Turns c1Msgs "hi").msgs
      = [{ role := "system", content := some "You are a helpful assistant." },
         { role := "user", content := some "hi" },
         { role := "assistant", content := none,
           tool_calls := some [⟨some "call_1", "function",
             ⟨"read_file", "\x7b\"filepath\":\"x.py\"\x7d"⟩⟩] },
         { role := "tool", content := some "file contents",
           tool_call_id := some (some "call_1"), name := some "read_file" },
         { role := "assistant", content := some "Done" }] := by
  refine ⟨by decide, by decide, by decide⟩

open AgentEngine in
/-- C3: a single `run_stream` call performs at most 10 model-turn
iterations, and when all 10 produce tool calls it makes exactly 10 provider
calls — none after the 10th — and its last yielded token is the visible
safety warning. -/
theorem c3_iteration_bound (cb : Option (String → String → Bool)) (reg : Registry) :
    (∀ turns msgs u, (run_stream cb reg turns msgs u).calls ≤ 10)
    ∧ ∀ turns msgs u, 10 ≤ turns.length →
        (∀ t ∈ turns.take 10, (processTurn t).chunks.isEmpty = false) →
        (run_stream cb reg turns msgs u).calls = 10
        ∧ (run_stream cb reg turns msgs u).tokens.getLast? = some safetyToken := by
  constructor
  · intro turns msgs u
    exact runStreamLoop_calls_le cb reg 10 turns _
  · intro turns msgs u h1 h2
    exact runStreamLoop_exhaust cb reg 10 turns _ h1 h2

open AgentEngine in
/-- Witness for C3: a provider that requests a tool on each of 12 turns is
consulted exactly 10 times and the stream ends with the safety warning. -/
theorem c3_iteration_bound_witness :
    (run_stream none [] (List.replicate 12 c3Turn) [] "go").calls = 10
    ∧ (run_stream none [] (List.replicate 12 c3Turn) [] "go").tokens.getLast?
        = some safetyToken :=
  (c3_iteration_bound none []).2 (List.replicate 12 c3Turn) [] "go"
    (by decide) (by decide)

open AgentEngine in
/-- C4: a tool call denied by the configured confirmation callback yields
the progress token, appends exactly one tool-role message carrying the fixed
denial text and the matching `tool_call_id`, and dispatches nothing to the
registry; within any turn's tool-call list, the denied call contributes
exactly that one message and no execution. -/
theorem c4_denied_tool_call (f : String → String → Bool) (reg : Registry)
    (tc : ToolCallObj) (h : f tc.function.name tc.function.arguments = false) :
    processToolCall (some f) reg tc
      = ⟨[dimToken tc.function.name], [denialMsg tc], []⟩
    ∧ ∀ pre post : List ToolCallObj,
        (processToolCalls (some f) reg (pre ++ tc :: post)).msgs
          = (processToolCalls (some f) reg pre).msgs
            ++ denialMsg tc :: (processToolCalls (some f) reg post).msgs
        ∧ (processToolCalls (some f) reg (pre ++ tc :: post)).executed
          = (processToolCalls (some f) reg pre).executed
            ++ (processToolCalls (some f) reg post).executed := by
  have hpc : processToolCall (some f) reg tc
      = ⟨[dimToken tc.function.name], [denialMsg tc], []⟩ := by
    simp [processToolCall, h]
  refine ⟨hpc, ?_⟩
  intro pre post
  rw [processToolCalls_append, processToolCalls_cons, hpc]
  constructor <;> simp

open AgentEngine in
/-- Witness for C4 at an always-denying callback. -/
theorem c4_denied_tool_call_witness :
    processToolCall (some (fun _ _ => false)) [] c4Tc
      = ⟨[dimToken c4Tc.function.name], [denialMsg c4Tc], []⟩
    ∧ (processToolCalls (some (fun _ _ => false)) [] ([] ++ c4Tc :: [])).msgs
        = (processToolCalls (some (fun _ _ => false)) [] []).msgs
          ++ denialMsg c4Tc :: (processToolCalls (some (fun _ _ => false)) [] []).msgs := by
  have h := c4_denied_tool_call (fun _ _ => false) [] c4Tc rfl
  exact ⟨h.1, (h.2 [] []).1⟩

open AgentEngine in
/-- C6: the conversation list is append-only — at every fuel, provider
behaviour and starting history, the loop's final history extends the
starting history, so any prefix of the history before an operation is still
a prefix after it; a full `run_stream` appends the user message and then
only ever appends. -/
theorem c6_history_append_only :
    (∀ (cb : Option (String → String → Bool)) (reg : Registry) (fuel : Nat)
        (turns : List (List Chunk)) (msgs : List Message),
       ∃ tail, (runStreamLoop cb reg fuel turns msgs).msgs = msgs ++ tail)
    ∧ ∀ (cb : Option (String → String → Bool)) (reg : Registry)
        (turns : List (List Chunk)) (msgs : List Message) (u : String),
        ∃ tail, (run_stream cb reg turns msgs u).msgs
          = msgs ++ ({ role := "user", content := some u } : Message) :: tail := by
  constructor
  · intro cb reg fuel turns msgs
    exact runStreamLoop_msgs_extends cb reg fuel turns msgs
  · intro cb reg turns msgs u
    obtain ⟨t, ht⟩ := runStreamLoop_msgs_extends cb reg 10 turns
      (msgs ++ [{ role := "user", content := some u }])
    refine ⟨t, ?_⟩
    rw [run_stream_def, ht]
    simp

/-! ## Claim theorems: retry policy (C9) -/

theorem call_sync_from_exhaust (responses : Nat → HttpRes) (m : Nat)
    (h : ∀ n, is429orErr (responses n) = true) :
    ∀ (remaining attempt delay : Nat) (sleeps : List Nat),
      attempt + remaining = m + 1 → attempt ≤ m →
      ∃ e, (call_sync_from responses m remaining attempt delay sleeps).result
        = Except.error e := by
  intro remaining
  induction remaining with
  | zero =>
    intro attempt delay sleeps hsum hle
    omega
  | succ r ih =>
    intro attempt delay sleeps hsum hle
    have hr := h attempt
    cases hres : responses attempt with
    | transportErr e =>
      simp only [call_sync_from, hres]
      by_cases hlt : attempt < m
      · rw [if_pos hlt]
        exact ih (attempt + 1) (delay * 2) (sleeps ++ [delay]) (by omega) (by omega)
      · rw [if_neg hlt]
        exact ⟨e, rfl⟩
    | status code body =>
      rw [hres] at hr
      simp only [is429orErr, beq_iff_eq] at hr
      subst hr
      simp only [call_sync_from, hres]
      by_cases hlt : attempt < m
      · rw [if_pos ⟨by simp, hlt⟩]
        exact ih (attempt + 1) (delay * 2) (sleeps ++ [delay]) (by omega) (by omega)
      · rw [if_neg (fun hand => hlt hand.2), if_pos (by omega : (400 : Nat) ≤ 429),
          if_neg hlt]
        exact ⟨_, rfl⟩

theorem call_stream_from_exhaust (responses : Nat → HttpRes) (m : Nat)
    (h : ∀ n, is429orErr (responses n) = true) :
    ∀ (remaining attempt delay : Nat) (sleeps : List Nat),
      attempt + remaining = m + 1 → attempt ≤ m →
      ∃ e, (call_stream_from responses m remaining attempt delay sleeps).result
        = Except.error e := by
  intro remaining
  induction remaining with
  | zero =>
    intro attempt delay sleeps hsum hle
    omega
  | succ r ih =>
    intro attempt delay sleeps hsum hle
    have hr := h attempt
    cases hres : responses attempt with
    | transportErr e =>
      simp only [call_stream_from, hres]
      by_cases hlt : attempt < m
      · rw [if_pos hlt]
        exact ih (attempt + 1) (delay * 2) (sleeps ++ [delay]) (by omega) (by omega)
      · rw [if_neg hlt]
        exact ⟨e, rfl⟩
    | status code body =>
      rw [hres] at hr
      simp only [is429orErr, beq_iff_eq] at hr
      subst hr
      simp only [call_stream_from, hres]
      by_cases hlt : attempt < m
      · rw [if_pos ⟨by simp, hlt⟩]
        exact ih (attempt + 1) (delay * 2) (sleeps ++ [delay]) (by omega) (by omega)
      · rw [if_neg (fun hand => hlt hand.2), if_pos (by omega : (400 : Nat) ≤ 429),
          if_neg hlt]
        exact ⟨_, rfl⟩

/-- C9: with retries configured to 3 and the provider answering 429, 429,
200, both the non-streaming and the streaming call succeed on the third
attempt after exactly two backoff sleeps of 2 then 4 seconds; and whenever
every attempt meets a 429 or a transport error, both loops re-raise instead
of swallowing the failure. -/
theorem c9_retry_backoff :
    call_sync c9Responses 3 = ⟨.ok "OK", 3, [2, 4]⟩
    ∧ call_stream c9Responses 3 = ⟨.ok "OK", 3, [2, 4]⟩
    ∧ ∀ (responses : Nat → HttpRes) (m : Nat),
        (∀ n, is429orErr (responses n) = true) →
        (∃ e, (call_sync responses m).result = Except.error e)
        ∧ ∃ e, (call_stream responses m).result = Except.error e := by
  refine ⟨rfl, rfl, ?_⟩
  intro responses m h
  constructor
  · exact call_sync_from_exhaust responses m h (m + 1) 0 2 [] (by omega) (by omega)
  · exact call_stream_from_exhaust responses m h (m + 1) 0 2 [] (by omega) (by omega)

/-- Witness for C9 at an always-429 provider. -/
theorem c9_retry_backoff_witness :
    (∃ e, (call_sync c9All429 3).result = Except.error e)
    ∧ ∃ e, (call_stream c9All429 3).result = Except.error e :=
  c9_retry_backoff.2.2 c9All429 3 (fun _ => rfl)

end Sarathi
